import Mathlib

/-!
Verification development for the agentmesh registry core.

Shallow embedding of the Python sources under `src/agentmesh/core/`
(`trust.py`, `registry.py`, `federation.py`, `pow.py`, `agent_card.py`)
into Lean.  Machine floats are modelled as rationals; Python `dict`s are
modelled as association lists preserving insertion order; wall-clock
timestamps are rationals (seconds).  External primitives (sha256, the
network, random nonce generation) are parameters of the embedded
functions, matching the spec's treatment of them as black-box oracles.
-/

namespace AgentMesh

/-- Association-list lookup, modelling Python `dict.get`. -/
def alookup {α : Type} (l : List (String × α)) (k : String) : Option α :=
  match l with
  | [] => none
  | (k', v) :: t => if k' = k then some v else alookup t k

/-- Association-list insert/overwrite, modelling Python `dict.__setitem__`:
an existing key keeps its position, a new key is appended at the end
(insertion order, as in CPython dicts). -/
def aset {α : Type} (l : List (String × α)) (k : String) (v : α) :
    List (String × α) :=
  match l with
  | [] => [(k, v)]
  | (k', v') :: t => if k' = k then (k, v) :: t else (k', v') :: aset t k v

/-- Association-list removal, modelling Python `del d[k]`. -/
def aerase {α : Type} (l : List (String × α)) (k : String) :
    List (String × α) :=
  match l with
  | [] => []
  | (k', v') :: t => if k' = k then t else (k', v') :: aerase t k

theorem alookup_aset {α : Type} (l : List (String × α)) (k k' : String)
    (v : α) :
    alookup (aset l k v) k' = if k = k' then some v else alookup l k' := by
  induction l with
  | nil =>
    by_cases h : k = k' <;> simp [aset, alookup, h]
  | cons p t ih =>
    obtain ⟨k0, v0⟩ := p
    by_cases h0 : k0 = k
    · subst h0
      by_cases h : k0 = k' <;> simp [aset, alookup, h]
    · by_cases h : k0 = k'
      · subst h
        have hkk : ¬ k = k0 := fun he => h0 he.symm
        simp [aset, alookup, h0, hkk, ih]
      · simp [aset, alookup, h0, h, ih]

theorem alookup_aerase {α : Type} (l : List (String × α)) (k k' : String)
    (hne : k ≠ k') :
    alookup (aerase l k) k' = alookup l k' := by
  induction l with
  | nil => simp [aerase]
  | cons p t ih =>
    obtain ⟨k0, v0⟩ := p
    by_cases h0 : k0 = k
    · subst h0
      have : ¬ k0 = k' := fun he => hne he
      simp [aerase, alookup, this]
    · simp [aerase, alookup, h0]
      by_cases h : k0 = k' <;> simp [alookup, h, ih]

/-- `max(min_score, min(max_score, x))` with the configured bounds 0 and 1
(`trust.py` lines 47-48, 149). -/
def clamp01 (x : ℚ) : ℚ := max 0 (min 1 x)

theorem clamp01_nonneg (x : ℚ) : 0 ≤ clamp01 x := le_max_left 0 _

theorem clamp01_le_one (x : ℚ) : clamp01 x ≤ 1 := by
  unfold clamp01
  rcases le_total 1 x with h | h
  · simp [min_eq_left h]
  · have : min 1 x = x := min_eq_right h
    rw [this]
    rcases le_total 0 x with h0 | h0
    · simpa [max_eq_right h0] using h
    · simp [max_eq_left h0]

theorem clamp01_of_mem (x : ℚ) (h0 : 0 ≤ x) (h1 : x ≤ 1) : clamp01 x = x := by
  unfold clamp01
  rw [min_eq_right h1, max_eq_right h0]

/-! ## Proof-of-work manager (`pow.py`) -/

/-- State of `PoWManager`: the required number of leading zero hex digits,
the challenge TTL in seconds, and the `nonce -> issue timestamp` map. -/
structure PoWState where
  difficulty : ℕ
  ttlSeconds : ℚ
  challenges : List (String × ℚ)

/-- `digest.startswith("0" * difficulty)` (`pow.py` line 54). -/
def zeroPref (digest : String) (difficulty : ℕ) : Bool :=
  List.isPrefixOf (List.replicate difficulty '0') digest.toList

/-- `PoWManager._cleanup` (`pow.py` lines 61-66): drop every challenge
strictly older than the TTL. -/
def powCleanup (st : PoWState) (now : ℚ) : PoWState :=
  { st with challenges :=
      st.challenges.filter (fun p => ¬ (now - p.2 > st.ttlSeconds)) }

/-- `PoWManager.create_challenge` (`pow.py` lines 23-28): the fresh random
nonce is a parameter (random generation is an external primitive).  Stores
`now` for the nonce, then runs cleanup. -/
def createChallenge (st : PoWState) (nonce : String) (now : ℚ) : PoWState :=
  powCleanup { st with challenges := aset st.challenges nonce now } now

/-- `PoWManager.verify_solution` (`pow.py` lines 30-59).  `hash` stands for
`sha256(... ).hexdigest()`, an external primitive.  Mirrors the Python
control flow exactly, including the falsy check `if not timestamp` (true
for a missing nonce and for a stored timestamp equal to 0.0). -/
def verifySolution (hash : String → String) (st : PoWState)
    (nonce solution : String) (now : ℚ) : Bool × PoWState :=
  match alookup st.challenges nonce with
  | none => (false, st)
  | some ts =>
    if ts = 0 then (false, st)
    else if now - ts > st.ttlSeconds then
      (false, { st with challenges := aerase st.challenges nonce })
    else if zeroPref (hash (nonce ++ solution)) st.difficulty then
      (true, { st with challenges := aerase st.challenges nonce })
    else (false, st)

theorem alookup_none_of_not_mem {α : Type} (l : List (String × α))
    (k : String) (h : k ∉ l.map Prod.fst) : alookup l k = none := by
  induction l with
  | nil => rfl
  | cons p t ih =>
    obtain ⟨k0, v0⟩ := p
    simp only [List.map_cons, List.mem_cons] at h
    push_neg at h
    have hk0 : ¬ k0 = k := fun he => h.1 (he.symm)
    simpa [alookup, hk0] using ih h.2

theorem alookup_aerase_self {α : Type} (l : List (String × α)) (k : String)
    (h : (l.map Prod.fst).Nodup) : alookup (aerase l k) k = none := by
  induction l with
  | nil => rfl
  | cons p t ih =>
    obtain ⟨k0, v0⟩ := p
    simp only [List.map_cons, List.nodup_cons] at h
    by_cases h0 : k0 = k
    · subst h0
      simpa [aerase] using alookup_none_of_not_mem t k0 h.1
    · simpa [aerase, alookup, h0] using ih h.2

/-- C4: `verify(nonce, solution)` returns false when the nonce is unknown or
older than the TTL; for a nonce stored with a positive timestamp (as
`create_challenge` always does) it returns true exactly when the nonce is
unexpired and the digest has the configured number of leading zero hex
digits; and success consumes the nonce, so a second verify of the same
nonce+solution pair afterward always returns false (stated for challenge
maps without duplicate nonces, as Python dicts guarantee). -/
theorem C4_pow_verify (hash : String → String) (st : PoWState)
    (nonce solution : String) (now : ℚ) :
    (alookup st.challenges nonce = none →
      (verifySolution hash st nonce solution now).1 = false) ∧
    (∀ ts, alookup st.challenges nonce = some ts →
      now - ts > st.ttlSeconds →
      (verifySolution hash st nonce solution now).1 = false) ∧
    (∀ ts, alookup st.challenges nonce = some ts → 0 < ts →
      ((verifySolution hash st nonce solution now).1 = true ↔
        (now - ts ≤ st.ttlSeconds ∧
          zeroPref (hash (nonce ++ solution)) st.difficulty = true))) ∧
    ((st.challenges.map Prod.fst).Nodup →
      ∀ st', verifySolution hash st nonce solution now = (true, st') →
      ∀ now' : ℚ, (verifySolution hash st' nonce solution now').1 = false) := by
  refine ⟨?_, ?_, ?_, ?_⟩
  · intro h
    simp [verifySolution, h]
  · intro ts hts hexp
    by_cases h0 : ts = 0
    · simp [verifySolution, hts, h0]
    · simp [verifySolution, hts, h0, hexp]
  · intro ts hts h0
    have hne : ¬ ts = 0 := by positivity
    by_cases hexp : now - ts > st.ttlSeconds
    · simp [verifySolution, hts, hne, hexp]
      intro h
      linarith
    · by_cases hz : zeroPref (hash (nonce ++ solution)) st.difficulty
      · simp [verifySolution, hts, hne, hexp, hz, not_lt.mp hexp]
      · simp [verifySolution, hts, hne, hexp, hz]
  · intro hnd st' hver now'
    have hkey : alookup st'.challenges nonce = none := by
      unfold verifySolution at hver
      cases hlk : alookup st.challenges nonce with
      | none => simp [hlk] at hver
      | some ts =>
        by_cases h0 : ts = 0
        · simp [hlk, h0] at hver
        · by_cases hexp : now - ts > st.ttlSeconds
          · simp [hlk, h0, hexp] at hver
          · by_cases hz : zeroPref (hash (nonce ++ solution)) st.difficulty
            · have : st' = { st with challenges := aerase st.challenges nonce } := by
                simp [hlk, h0, hexp, hz] at hver
                exact hver.symm
              rw [this]
              exact alookup_aerase_self st.challenges nonce hnd
            · simp [hlk, h0, hexp, hz] at hver
    simp [verifySolution, hkey]

/-- Closed witness exercising `C4_pow_verify` on a concrete state: a valid
solution verifies once and its replay on the consumed state fails, and an
unknown nonce fails. -/
theorem C4_pow_verify_witness :
    (verifySolution (fun _ => "00x") ⟨2, 60, [("n", (5 : ℚ))]⟩ "n" "s" 10).1
        = true ∧
    (∀ st', verifySolution (fun _ => "00x") ⟨2, 60, [("n", (5 : ℚ))]⟩
        "n" "s" 10 = (true, st') →
      (verifySolution (fun _ => "00x") st' "n" "s" 11).1 = false) ∧
    (verifySolution (fun _ => "00x") ⟨2, 60, [("n", (5 : ℚ))]⟩ "m" "s" 10).1
        = false := by
  refine ⟨?_, ?_, ?_⟩
  · exact ((C4_pow_verify (fun _ => "00x") ⟨2, 60, [("n", 5)]⟩ "n" "s"
      10).2.2.1 5 (by decide) (by norm_num)).mpr
      ⟨show (10 : ℚ) - 5 ≤ 60 by norm_num, by decide⟩
  · intro st' h
    exact (C4_pow_verify (fun _ => "00x") ⟨2, 60, [("n", 5)]⟩ "n" "s"
      10).2.2.2 (by decide) st' h 11
  · exact (C4_pow_verify (fun _ => "00x") ⟨2, 60, [("n", 5)]⟩ "m" "s"
      10).1 (by decide)

/-! ## Agent card data model (`agent_card.py`) -/

/-- `Skill`: the two required fields read by the core logic. -/
structure Skill where
  name : String
  description : String
deriving DecidableEq

/-- `AgentCard`: the fields read or written by the registry, trust,
discovery and federation logic.  Timestamps are rationals (seconds);
the spec's remaining descriptive fields (version, protocol, urls,
pricing, ...) behave exactly like `name` in every embedded operation and
are represented by it. -/
structure Card where
  id : String
  name : String
  description : Option String
  skills : List Skill
  endpoint : String
  tags : Option (List String)
  healthStatus : String
  lastHealthCheck : Option ℚ
  lastHeartbeat : Option ℚ
  createdAt : ℚ
  updatedAt : ℚ
  signature : Option String
  publicKey : Option String
  ownerId : Option String
  speciesId : Option String
  claimCode : Option String
  referrerId : Option String
  referralPaid : Bool
  trustScore : Option ℚ
deriving DecidableEq

/-! ## Keyword relevance scoring (`registry.py`, `_search_score`) -/

/-- Python `str.lower()` applied characterwise. -/
def lowerChars (s : String) : List Char := s.toList.map Char.toLower

/-- Python substring test `needle in hay`. -/
def subIn (needle hay : List Char) : Bool :=
  (List.range (hay.length + 1)).any fun i =>
    List.isPrefixOf needle (hay.drop i)

/-- `any(query in skill for skill in skills)` over lowercased skill names
(`registry.py` lines 1030, 1040). -/
def skillNameHit (a : Card) (q : List Char) : Bool :=
  a.skills.any fun s => subIn q (lowerChars s.name)

/-- `any(query in desc for desc in skill_desc)` over lowercased skill
descriptions (`registry.py` lines 1031, 1043). -/
def skillDescHit (a : Card) (q : List Char) : Bool :=
  a.skills.any fun s => subIn q (lowerChars s.description)

/-- `AgentRegistry._search_score` (`registry.py` lines 1024-1058), final
score only (the caller lowercases the query; `matched_fields` is the
string list the code deduplicates, it does not feed back into the score).
`trust` stands for `calculate_trust_score(agent.id)`. -/
def searchScore (a : Card) (q : List Char) (trust : ℚ) : ℚ :=
  let s1 : ℚ := if subIn q (lowerChars a.name) then 1 else 0
  let s2 : ℚ := if subIn q (lowerChars (a.description.getD "")) then 4/5 else 0
  let s3 : ℚ := if skillNameHit a q then 9/10 else 0
  let s4 : ℚ := if skillDescHit a q then 3/5 else 0
  let s5 : ℚ :=
    if ((a.tags.getD []).map lowerChars).any (fun t => subIn q t) then 7/10
    else 0
  (s1 + s2 + s3 + s4 + s5) * (4/5 + trust * (2/5))

/-- Modelled from the spec's wording of the scoring rule, for refinement
comparison with `searchScore`: identical except that the 0.6
skill-description weight is **not** counted when a skill-name already
matched. -/
def specSearchScore (a : Card) (q : List Char) (trust : ℚ) : ℚ :=
  let s1 : ℚ := if subIn q (lowerChars a.name) then 1 else 0
  let s2 : ℚ := if subIn q (lowerChars (a.description.getD "")) then 4/5 else 0
  let s3 : ℚ := if skillNameHit a q then 9/10 else 0
  let s4 : ℚ := if skillDescHit a q ∧ ¬ skillNameHit a q then 3/5 else 0
  let s5 : ℚ :=
    if ((a.tags.getD []).map lowerChars).any (fun t => subIn q t) then 7/10
    else 0
  (s1 + s2 + s3 + s4 + s5) * (4/5 + trust * (2/5))

/-- A card whose sole skill matches a query in both its name and its
description. -/
def cardSkillBoth : Card :=
  { id := "a1", name := "zzz", description := none,
    skills := [⟨"alpha", "alpha tool"⟩], endpoint := "e", tags := none,
    healthStatus := "healthy", lastHealthCheck := none,
    lastHeartbeat := none, createdAt := 0, updatedAt := 0,
    signature := none, publicKey := none, ownerId := none,
    speciesId := none, claimCode := none, referrerId := none,
    referralPaid := false, trustScore := none }

/-- C9 counterexample: for a candidate whose skill name *and* skill
description both match the query, the code adds both 0.9 and 0.6
(total 1.5 before the booster; booster is 1 at trust 0.5), while the
claim's rule — skill-description not counted in addition when a
skill-name already matched — predicts 0.9. -/
theorem C9_search_score_counterexample :
    searchScore cardSkillBoth ("alpha".toList) (1/2) = 3/2 ∧
    specSearchScore cardSkillBoth ("alpha".toList) (1/2) = 9/10 ∧
    ((3 : ℚ)/2) ≠ 9/10 := by
  have hn : subIn ['a', 'l', 'p', 'h', 'a']
      (lowerChars cardSkillBoth.name) = false := by decide
  have hd : subIn ['a', 'l', 'p', 'h', 'a']
      (lowerChars (cardSkillBoth.description.getD "")) = false := by decide
  have hs : skillNameHit cardSkillBoth ['a', 'l', 'p', 'h', 'a'] = true := by
    decide
  have hsd : skillDescHit cardSkillBoth ['a', 'l', 'p', 'h', 'a'] = true := by
    decide
  have ht : cardSkillBoth.tags.getD [] = [] := by decide
  refine ⟨?_, ?_, by norm_num⟩ <;>
    (simp [searchScore, specSearchScore, hn, hd, hs, hsd, ht]; norm_num)

/-- C9 (amended): the keyword relevance score is the weighted sum with the
trust booster as claimed, except that the 0.6 skill-description weight is
always added on a skill-description match — only the `matched_fields`
label list avoids a duplicate "skills" entry.  Hence the code's score
exceeds the claimed score by exactly `0.6 * booster` whenever both a
skill name and a skill description match, and equals it otherwise. -/
theorem C9_search_score_amended (a : Card) (q : List Char) (trust : ℚ) :
    searchScore a q trust =
      specSearchScore a q trust +
        (if skillNameHit a q ∧ skillDescHit a q then
          (3/5) * (4/5 + trust * (2/5)) else 0) := by
  unfold searchScore specSearchScore
  cases hn : skillNameHit a q <;> cases hd : skillDescHit a q <;>
    (simp [hn, hd]; try ring)

/-! ## Directory update and federation merge
(`registry.py` `update_agent`, `federation.py` `_process_sync_data`) -/

/-- `AgentCardUpdate`: the patch object.  Every field is optional;
`model_dump(exclude_none=True)` in `update_agent` applies exactly the
non-`None` ones. -/
structure Upd where
  name : Option String := none
  description : Option String := none
  skills : Option (List Skill) := none
  endpoint : Option String := none
  tags : Option (List String) := none
  healthStatus : Option String := none
  signature : Option String := none
  publicKey : Option String := none
  referralPaid : Option Bool := none
  trustScore : Option ℚ := none
deriving DecidableEq

/-- Patch application for an optional card field: `setattr` runs only when
the patch carries a value. -/
def setOpt {α : Type} (patch : Option α) (old : Option α) : Option α :=
  match patch with
  | some v => some v
  | none => old

/-- The field merge of `AgentRegistry.update_agent` (`registry.py` lines
289-293): apply every non-`None` patch field, then `update_timestamp()`
sets `updatedAt := now`.  `id`, `createdAt`, `claimCode`, `speciesId`,
`ownerId`, `referrerId`, `lastHealthCheck`, `lastHeartbeat` are not
`AgentCardUpdate` fields and are never touched. -/
def updateCardFields (c : Card) (u : Upd) (now : ℚ) : Card :=
  { c with
    name := u.name.getD c.name
    description := setOpt u.description c.description
    skills := u.skills.getD c.skills
    endpoint := u.endpoint.getD c.endpoint
    tags := setOpt u.tags c.tags
    healthStatus := u.healthStatus.getD c.healthStatus
    signature := setOpt u.signature c.signature
    publicKey := setOpt u.publicKey c.publicKey
    referralPaid := u.referralPaid.getD c.referralPaid
    trustScore := setOpt u.trustScore c.trustScore
    updatedAt := now }

/-- The `AgentCardUpdate` built by `_process_sync_data` (`federation.py`
lines 112-129): `model_dump` excludes `trust_score`, `created_at`,
`updated_at`, `id`, `claim_code`, `species_id` and every `None` field.
`AgentCardUpdate` has `extra="forbid"` and no `last_health_check`,
`last_heartbeat`, `owner_id` or `referrer_id` field, so a dump carrying
any of those non-`None` raises a ValidationError (caught by the sync loop,
which then skips the agent) — modelled as `none`. -/
def fedUpdOf (incoming : Card) : Option Upd :=
  if incoming.lastHealthCheck.isSome ∨ incoming.lastHeartbeat.isSome ∨
      incoming.ownerId.isSome ∨ incoming.referrerId.isSome then none
  else some
    { name := some incoming.name
      description := incoming.description
      skills := some incoming.skills
      endpoint := some incoming.endpoint
      tags := incoming.tags
      healthStatus := some incoming.healthStatus
      signature := incoming.signature
      publicKey := incoming.publicKey
      referralPaid := some incoming.referralPaid
      trustScore := none }

/-- `_process_sync_data` merge step for an incoming card whose id is
already known locally (`federation.py` lines 87-134).  `sigRejected` is
the outcome of the black-box signature check (`True` when a signature was
present and failed verification, in which case the card is skipped). -/
def mergeKnown (lc incoming : Card) (sigRejected : Bool) (now : ℚ) : Card :=
  if sigRejected then lc
  else if incoming.updatedAt > lc.updatedAt then
    match fedUpdOf incoming with
    | some u => updateCardFields lc u now
    | none => lc
  else lc

/-- C2: the federation merge for a locally known id applies an update only
when the incoming `updatedAt` is strictly newer than the local one, and no
merge ever changes the local record's `trustScore`, `createdAt`, `id`,
`claimCode` or `speciesId`. -/
theorem C2_federation_merge (lc incoming : Card) (sigRejected : Bool)
    (now : ℚ) :
    (incoming.updatedAt ≤ lc.updatedAt →
      mergeKnown lc incoming sigRejected now = lc) ∧
    (mergeKnown lc incoming sigRejected now).trustScore = lc.trustScore ∧
    (mergeKnown lc incoming sigRejected now).createdAt = lc.createdAt ∧
    (mergeKnown lc incoming sigRejected now).id = lc.id ∧
    (mergeKnown lc incoming sigRejected now).claimCode = lc.claimCode ∧
    (mergeKnown lc incoming sigRejected now).speciesId = lc.speciesId := by
  unfold mergeKnown
  cases sigRejected with
  | true => simp
  | false =>
    by_cases hlt : incoming.updatedAt > lc.updatedAt
    · have hle : ¬ incoming.updatedAt ≤ lc.updatedAt := not_le.mpr hlt
      cases hu : fedUpdOf incoming with
      | none => simp [hlt, hu]
      | some u =>
        refine ⟨fun h => absurd h hle, ?_⟩
        have hts : u.trustScore = none := by
          unfold fedUpdOf at hu
          by_cases hc : incoming.lastHealthCheck.isSome ∨
              incoming.lastHeartbeat.isSome ∨ incoming.ownerId.isSome ∨
              incoming.referrerId.isSome
          · simp [hc] at hu
          · simp [hc] at hu
            rw [← hu]
        simp [hlt, hu, updateCardFields, setOpt, hts]
    · simp [hlt]

/-- Closed witness for `C2_federation_merge`: a concrete equal-timestamp
incoming card leaves the concrete local record untouched. -/
theorem C2_federation_merge_witness :
    mergeKnown cardSkillBoth cardSkillBoth false 7 = cardSkillBoth :=
  (C2_federation_merge cardSkillBoth cardSkillBoth false 7).1 le_rfl

/-! ## Listing and federation pull payload
(`registry.py` `list_agents`, `federation.py` `get_local_updates`) -/

/-- `get_sort_key` of `AgentRegistry.list_agents` (`registry.py` lines
365-372); `agent.trust_score or 0.0` maps both `None` and `0.0` to 0. -/
def sortKeyOf (sortBy : String) (a : Card) : ℚ :=
  if sortBy = "trust_score" then a.trustScore.getD 0
  else if sortBy = "updated_at" then a.updatedAt
  else if sortBy = "created_at" then a.createdAt
  else 0

/-- `AgentRegistry.list_agents` (`registry.py` lines 349-384): stable sort
of the directory values by the sort key (descending when `order="desc"`),
then `agents[skip : skip + limit]`.  The trust-score refresh on the
returned page mutates only the `trust_score` attribute of the returned
cards and does not affect which records are returned. -/
def listAgents (agents : List Card) (skip limit : ℕ) (sortBy : String)
    (desc : Bool) : List Card :=
  let le : Card → Card → Bool := fun a b =>
    if desc then sortKeyOf sortBy b ≤ sortKeyOf sortBy a
    else sortKeyOf sortBy a ≤ sortKeyOf sortBy b
  ((agents.mergeSort le).drop skip).take limit

/-- The federation pull payload `{agents, peers, timestamp}`. -/
structure FedUpdate where
  agents : List Card
  peers : List String
  timestamp : ℚ
deriving DecidableEq

/-- `FederationManager.get_local_updates` (`federation.py` lines 24-39):
`list_agents()` is called with its default arguments (`skip=0`,
`limit=100`, `sort_by="updated_at"`, `order="desc"`), then records with
`updated_at.timestamp() > since_timestamp` are kept. -/
def getLocalUpdates (agents : List Card) (peers : List String)
    (since : ℚ) (now : ℚ) : FedUpdate :=
  { agents := (listAgents agents 0 100 "updated_at" true).filter
      (fun a => since < a.updatedAt)
    peers := peers
    timestamp := now }

/-- A directory of 101 distinct records, all with `updatedAt = 1`. -/
def reg101 : List Card :=
  (List.range 101).map fun i : ℕ =>
    { cardSkillBoth with createdAt := (i : ℚ), updatedAt := 1 }

theorem reg101_updated (a : Card) (ha : a ∈ reg101) : a.updatedAt = 1 := by
  unfold reg101 at ha
  obtain ⟨i, _, rfl⟩ := List.mem_map.mp ha
  rfl

theorem reg101_nodup : reg101.Nodup := by
  refine List.Nodup.map ?_ (List.nodup_range 101)
  intro i j hij
  have : ((i : ℚ)) = (j : ℚ) := congrArg Card.createdAt hij
  exact_mod_cast this

/-- C8 counterexample: with 101 registered agents all of whose `updatedAt`
strictly exceeds the watermark 0, `get_local_updates` does **not** return
every qualifying record — `list_agents`'s default `limit=100` drops one of
them. -/
theorem C8_get_local_updates_counterexample :
    ¬ (∀ a ∈ reg101, a.updatedAt > 0 →
        a ∈ (getLocalUpdates reg101 [] 0 5).agents) := by
  intro h
  have hsub : reg101 ⊆ (getLocalUpdates reg101 [] 0 5).agents := by
    intro a ha
    exact h a ha (by rw [reg101_updated a ha]; norm_num)
  have hlen : reg101.length ≤ ((getLocalUpdates reg101 [] 0 5).agents).length :=
    (reg101_nodup.subperm hsub).length_le
  have hlen101 : reg101.length = 101 := by
    unfold reg101
    rw [List.length_map, List.length_range]
  have hle : ((getLocalUpdates reg101 [] 0 5).agents).length ≤ 100 := by
    refine le_trans (List.length_filter_le _ _) ?_
    unfold listAgents
    simp
  omega

/-- C8 (amended): `get_local_updates` returns exactly the records with
`updatedAt` strictly above the watermark among the page served by
`list_agents`'s default arguments (at most the 100 most recently updated
records), together with the peer set; it returns *every* qualifying local
record only when the directory holds at most 100 agents. -/
theorem C8_get_local_updates_amended (agents : List Card)
    (peers : List String) (since now : ℚ) :
    (∀ a ∈ (getLocalUpdates agents peers since now).agents,
      a ∈ agents ∧ since < a.updatedAt) ∧
    (getLocalUpdates agents peers since now).peers = peers ∧
    (agents.length ≤ 100 → ∀ a ∈ agents, since < a.updatedAt →
      a ∈ (getLocalUpdates agents peers since now).agents) := by
  refine ⟨?_, rfl, ?_⟩
  · intro a ha
    have := List.mem_filter.mp ha
    refine ⟨?_, by simpa using this.2⟩
    have hmem : a ∈ listAgents agents 0 100 "updated_at" true := this.1
    unfold listAgents at hmem
    have := List.take_subset _ _ hmem
    rw [List.drop_zero] at this
    exact List.mem_mergeSort.mp this
  · intro h100 a ha hq
    have hlen : (agents.mergeSort fun a b =>
        if true = true then
          sortKeyOf "updated_at" b ≤ sortKeyOf "updated_at" a
        else sortKeyOf "updated_at" a ≤ sortKeyOf "updated_at" b).length
        ≤ 100 := by
      rw [List.length_mergeSort]; exact h100
    refine List.mem_filter.mpr ⟨?_, by simpa using hq⟩
    unfold listAgents
    dsimp only
    rw [List.drop_zero, List.take_of_length_le hlen]
    exact List.mem_mergeSort.mpr ha

/-- Closed witness for `C8_get_local_updates_amended`: in a one-record
directory the single qualifying record is returned. -/
theorem C8_get_local_updates_amended_witness :
    cardSkillBoth ∈
      (getLocalUpdates [cardSkillBoth] ["p"] (-1) 5).agents := by
  refine (C8_get_local_updates_amended [cardSkillBoth] ["p"] (-1) 5).2.2
    (by simp) cardSkillBoth (by simp) ?_
  show (-1 : ℚ) < 0
  norm_num

/-! ## Trust engine (`trust.py`) and the registry operations it couples to -/

/-- Combined in-memory state: the `AgentRegistry` agent map and search
cache (cache entries are opaque, only their keys matter to the claims)
plus the `TrustManager` maps.  `score_history` feeds only the
informational `get_breakdown` and is omitted. -/
structure SysState where
  registry : List (String × Card)
  searchCache : List String
  scores : List (String × ℚ)
  pending : List (String × ℚ)
  eventCounts : List (String × List (String × ℕ))
  peerHistory : List (String × List (String × ℚ))

/-- `TrustManager.weights` (`trust.py` lines 51-60); `weights.get(event
-type, 0.0)` for anything else. -/
def weightOf (eventType : String) : ℚ :=
  if eventType = "success" then 1/20
  else if eventType = "failure" then -(1/10)
  else if eventType = "timeout" then -(1/20)
  else if eventType = "bad_sig" then -(1/5)
  else if eventType = "rate_limit" then -(1/50)
  else if eventType = "heartbeat" then 1/100000
  else if eventType = "invocation" then 1/100
  else if eventType = "profile_update" then 1/20
  else 0

/-- `TrustManager.record_event` (`trust.py` lines 91-195).  The returned
flag is `true` when the call deadlocks: the referral branch, while still
holding the (non-reentrant) trust lock, awaits
`registry.update_agent(agent_id, referral_paid=True)`, which in turn
awaits `record_event(agent_id, PROFILE_UPDATE)` on the same lock and
blocks forever.  The returned state holds the mutations performed before
the blocked await (`update_agent` has already set `referral_paid`, bumped
`updated_at` and persisted the card; its cache clear and the
`create_task` for the referrer bonus are never reached).  Python truthiness:
an empty-string `source_agent_id` or `referrer_id` counts as absent. -/
def recordEvent (sys : SysState) (agentId eventType : String)
    (src : Option String) (now : ℚ) : SysState × Bool :=
  let current : ℚ :=
    match alookup sys.scores agentId with
    | some c => c
    | none =>
      match alookup sys.registry agentId with
      | some card => card.trustScore.getD (1/2)
      | none => 1/2
  let scores0 :=
    match alookup sys.scores agentId with
    | some _ => sys.scores
    | none => aset sys.scores agentId current
  let ac := (alookup sys.eventCounts agentId).getD []
  let ac1 := aset ac eventType ((alookup ac eventType).getD 0 + 1)
  let eventCounts1 := aset sys.eventCounts agentId ac1
  let delta0 := weightOf eventType
  let dph : ℚ × List (String × List (String × ℚ)) :=
    match src with
    | some s =>
      if s ≠ "" ∧ s ≠ agentId ∧ delta0 > 0 then
        let ph := (alookup sys.peerHistory agentId).getD []
        let phF := ph.filter fun p => now - p.2 < 3600
        let cnt := (phF.filter fun p => p.1 = s).length
        let d := if cnt > 0 then delta0 / 2 ^ cnt else delta0
        (d, aset sys.peerHistory agentId (phF ++ [(s, now)]))
      else (delta0, sys.peerHistory)
    | none => (delta0, sys.peerHistory)
  let delta := dph.1
  let newScore := clamp01 (current + delta)
  let changed : Prop := |newScore - current| > 1/10000
  let scores1 := if changed then aset scores0 agentId newScore else scores0
  let pending1 :=
    if changed then aset sys.pending agentId newScore else sys.pending
  let base : SysState :=
    { sys with scores := scores1, pending := pending1,
               eventCounts := eventCounts1, peerHistory := dph.2 }
  if eventType = "success" ∧ delta > 0 then
    match alookup sys.registry agentId with
    | some card =>
      if card.referrerId.getD "" ≠ "" ∧ card.referralPaid = false ∧
          (alookup ac1 "success").getD 0 ≥ 5 then
        let card1 := { card with referralPaid := true, updatedAt := now }
        ({ base with registry := aset sys.registry agentId card1 }, true)
      else (base, false)
    | none => (base, false)
  else (base, false)

/-- One agent step of `TrustManager._decay_loop` (`trust.py` lines
304-339). -/
def decayStep (acc : SysState) (p : String × ℚ) : SysState :=
  let diff := 1/2 - p.2
  if |diff| < 1/1000 then acc
  else
    let newScore := clamp01 (p.2 + diff * (1/100))
    if |newScore - p.2| > 1/10000 then
      let ac := (alookup acc.eventCounts p.1).getD []
      let ac1 := aset ac "decay" ((alookup ac "decay").getD 0 + 1)
      { acc with scores := aset acc.scores p.1 newScore,
                 pending := aset acc.pending p.1 newScore,
                 eventCounts := aset acc.eventCounts p.1 ac1 }
    else acc

/-- One iteration of `TrustManager._decay_loop`: fold the per-agent decay
step over the `list(self.scores.items())` snapshot. -/
def decayTick (sys : SysState) : SysState := sys.scores.foldl decayStep sys

/-- `TrustManager.get_score` (`trust.py` lines 245-292): returns the
in-memory score when present; otherwise seeds from the registry record,
applying analytic exponential decay towards 0.5 when at least one full
decay interval elapsed since the record's `updated_at`.  `int(x)` and
`Int.floor` agree on the `intervals > 0` test (they differ only for
negative elapsed time, where both fail it). -/
def getScoreOp (sys : SysState) (agentId : String) (now : ℚ) :
    SysState × ℚ :=
  match alookup sys.scores agentId with
  | some c => (sys, c)
  | none =>
    match alookup sys.registry agentId with
    | none => (sys, 1/2)
    | some card =>
      let currentScore := card.trustScore.getD (1/2)
      let intervals : ℤ := ⌊(now - card.updatedAt) / 60⌋
      if intervals > 0 then
        let decayed := clamp01
          (1/2 + (currentScore - 1/2) * (99/100) ^ intervals.toNat)
        let pending1 :=
          if |decayed - currentScore| > 1/100 then
            aset sys.pending agentId decayed
          else sys.pending
        ({ sys with scores := aset sys.scores agentId decayed,
                    pending := pending1 }, decayed)
      else
        ({ sys with scores := aset sys.scores agentId currentScore },
          currentScore)

/-- `AgentRegistry.update_agent` (`registry.py` lines 281-302) as invoked
*without* the trust lock held (flush, API, federation): apply the patch,
bump `updated_at`, persist, record a `PROFILE_UPDATE` trust event, clear
the search cache.  A missing id raises before any mutation. -/
def updateAgentSys (sys : SysState) (agentId : String) (u : Upd)
    (now : ℚ) : SysState :=
  match alookup sys.registry agentId with
  | none => sys
  | some card =>
    let card1 := updateCardFields card u now
    let sys1 := { sys with registry := aset sys.registry agentId card1 }
    let sys2 := (recordEvent sys1 agentId "profile_update" none now).1
    { sys2 with searchCache := [] }

/-- `TrustManager.flush` (`trust.py` lines 343-362): snapshot and clear
the pending map, then write each score back through
`update_agent(agent_id, AgentCardUpdate(trust_score=score))`; a failing
update is caught and skipped. -/
def flushTrust (sys : SysState) (now : ℚ) : SysState :=
  let updates := sys.pending
  let sys0 := { sys with pending := [] }
  updates.foldl
    (fun s p => updateAgentSys s p.1 { trustScore := some p.2 } now) sys0

/-- `AgentRegistry.register_agent` (`registry.py` lines 174-256), success
path: `hashv` is the sha256 species hash and `code` the random claim code
(external primitives); `sigOk` is the black-box signature/identity check
outcome.  Any validation failure raises before state is touched. -/
def registerAgent (sys : SysState) (card : Card) (sigOk : Bool)
    (hashv code : String) (now : ℚ) : SysState :=
  if card.skills = [] ∨ card.endpoint = "" then sys
  else if sigOk = false then sys
  else
    match alookup sys.registry card.id with
    | some _ => sys
    | none =>
      let c1 := { card with
        speciesId := some hashv
        claimCode :=
          if card.ownerId.getD "" = "" then some code else card.claimCode
        createdAt := now
        updatedAt := now }
      { sys with registry := aset sys.registry card.id c1,
                 searchCache := [] }

/-- `AgentRegistry.heartbeat` (`registry.py` lines 694-736): set the
health fields and `updated_at`, persist, then record a `HEARTBEAT` trust
event.  The search cache is not touched. -/
def heartbeatOp (sys : SysState) (agentId status : String) (now : ℚ) :
    SysState :=
  match alookup sys.registry agentId with
  | none => sys
  | some card =>
    let card1 :=
      { card with
          healthStatus := status
          lastHealthCheck := some now
          lastHeartbeat := some now
          updatedAt := now }
    let sys1 := { sys with registry := aset sys.registry agentId card1 }
    (recordEvent sys1 agentId "heartbeat" none now).1

theorem mem_aset {α : Type} (l : List (String × α)) (k : String) (v : α)
    (q : String × α) (hq : q ∈ aset l k v) : q = (k, v) ∨ q ∈ l := by
  induction l with
  | nil => simpa [aset] using hq
  | cons p t ih =>
    by_cases h0 : p.1 = k
    · rw [show aset (p :: t) k v = (k, v) :: t by
        cases p; simpa [aset] using fun h => absurd h0 h] at hq
      rcases List.mem_cons.mp hq with h | h
      · exact Or.inl h
      · exact Or.inr (List.mem_cons_of_mem _ h)
    · rw [show aset (p :: t) k v = p :: aset t k v by
        cases p; simpa [aset] using fun h => absurd h h0] at hq
      rcases List.mem_cons.mp hq with h | h
      · exact Or.inr (h ▸ List.mem_cons_self _ _)
      · rcases ih h with h' | h'
        · exact Or.inl h'
        · exact Or.inr (List.mem_cons_of_mem _ h')

theorem alookup_mem {α : Type} (l : List (String × α)) (k : String) (v : α)
    (h : alookup l k = some v) : (k, v) ∈ l := by
  induction l with
  | nil => simp [alookup] at h
  | cons p t ih =>
    obtain ⟨k0, v0⟩ := p
    by_cases h0 : k0 = k
    · subst h0
      simp [alookup] at h
      exact h ▸ List.mem_cons_self _ _
    · simp [alookup, h0] at h
      exact List.mem_cons_of_mem _ (ih h)

theorem recordEvent_cache (sys : SysState) (a e : String)
    (s : Option String) (n : ℚ) :
    ((recordEvent sys a e s n).1).searchCache = sys.searchCache := by
  unfold recordEvent
  dsimp only
  split
  · split
    · split <;> rfl
    · rfl
  · rfl

set_option maxHeartbeats 2000000 in
/-- The scores component of `record_event`, written out: the seeding,
dampening and minimum-change logic of `trust.py` lines 100-153 (the
referral branch never touches `scores`). -/
theorem recordEvent_scores_eq (sys : SysState) (a e : String)
    (s : Option String) (n : ℚ) :
    ((recordEvent sys a e s n).1).scores =
      (let current : ℚ :=
        match alookup sys.scores a with
        | some c => c
        | none =>
          match alookup sys.registry a with
          | some card => card.trustScore.getD (1/2)
          | none => 1/2
      let scores0 :=
        match alookup sys.scores a with
        | some _ => sys.scores
        | none => aset sys.scores a current
      let dph : ℚ × List (String × List (String × ℚ)) :=
        match s with
        | some sp =>
          if sp ≠ "" ∧ sp ≠ a ∧ weightOf e > 0 then
            let ph := (alookup sys.peerHistory a).getD []
            let phF := ph.filter fun p => n - p.2 < 3600
            let cnt := (phF.filter fun p => p.1 = sp).length
            let d := if cnt > 0 then weightOf e / 2 ^ cnt else weightOf e
            (d, aset sys.peerHistory a (phF ++ [(sp, n)]))
          else (weightOf e, sys.peerHistory)
        | none => (weightOf e, sys.peerHistory)
      let delta := dph.1
      if |clamp01 (current + delta) - current| > 1/10000 then
        aset scores0 a (clamp01 (current + delta))
      else scores0) := by
  unfold recordEvent
  dsimp only
  cases s <;> dsimp only <;>
    cases hl : alookup sys.scores a <;> dsimp only <;>
    cases hr : alookup sys.registry a <;> dsimp only <;>
    repeat' split
  all_goals rfl

theorem heartbeat_below_threshold (prev : ℚ) (h0 : 0 ≤ prev)
    (h1 : prev ≤ 1) :
    ¬ (|clamp01 (prev + 1/100000) - prev| > 1/10000) := by
  rcases le_total (prev + 1/100000) 1 with h | h
  · rw [clamp01_of_mem _ (by linarith) h,
      show prev + 1/100000 - prev = 1/100000 by ring,
      abs_of_nonneg (by norm_num)]
    norm_num
  · have hc : clamp01 (prev + 1/100000) = 1 := by
      unfold clamp01
      rw [min_eq_left h, max_eq_right (by norm_num : (0:ℚ) ≤ 1)]
    rw [hc, abs_of_nonneg (by linarith)]
    intro hgt
    linarith

/-- C7 (amended): a `record_event` call without a `sourcePeerId` moves the
tracked score to `clamp(prev + weight(eventType))` — with the fixed
weights success +0.05, failure −0.10, timeout −0.05, bad-signature −0.20,
rate-limited −0.02, heartbeat +0.00001, invocation +0.01, profile-update
+0.05 — but only when that changes the score by more than 0.0001;
otherwise the tracked score is left untouched.  In particular a heartbeat
event never changes a tracked score that lies in [0,1]. -/
theorem C7_record_event_fixed_weights (sys : SysState)
    (agentId etype : String) (now prev : ℚ)
    (hs : alookup sys.scores agentId = some prev) :
    (alookup ((recordEvent sys agentId etype none now).1).scores agentId =
      some (if |clamp01 (prev + weightOf etype) - prev| > 1/10000
            then clamp01 (prev + weightOf etype) else prev)) ∧
    (etype = "heartbeat" → 0 ≤ prev → prev ≤ 1 →
      alookup ((recordEvent sys agentId etype none now).1).scores agentId =
        some prev) ∧
    (weightOf "success" = 1/20 ∧ weightOf "failure" = -(1/10) ∧
      weightOf "timeout" = -(1/20) ∧ weightOf "bad_sig" = -(1/5) ∧
      weightOf "rate_limit" = -(1/50) ∧ weightOf "heartbeat" = 1/100000 ∧
      weightOf "invocation" = 1/100 ∧ weightOf "profile_update" = 1/20) := by
  have hmain : alookup ((recordEvent sys agentId etype none now).1).scores
      agentId =
      some (if |clamp01 (prev + weightOf etype) - prev| > 1/10000
            then clamp01 (prev + weightOf etype) else prev) := by
    rw [recordEvent_scores_eq]
    dsimp only
    rw [hs]
    dsimp only
    split
    · rw [alookup_aset]
      simp
    · exact hs
  refine ⟨hmain, ?_, rfl, rfl, rfl, rfl, rfl, rfl, rfl, rfl⟩
  intro hhb hp0 hp1
  subst hhb
  rw [hmain]
  have hw : weightOf "heartbeat" = 1/100000 := rfl
  rw [hw, if_neg (heartbeat_below_threshold prev hp0 hp1)]

/-- The trust state used in the C7 evaluation: one tracked agent at the
neutral score, nothing else. -/
def sysA : SysState :=
  { registry := [], searchCache := [], scores := [("a", 1/2)],
    pending := [], eventCounts := [], peerHistory := [] }

/-- A directory state whose agent "a" is registered *and* tracked at the
neutral score — the normal case for `record_event`. -/
def sysA7 : SysState :=
  { registry := [("a", { cardSkillBoth with id := "a" })],
    searchCache := [], scores := [("a", 1/2)], pending := [],
    eventCounts := [], peerHistory := [] }

/-- Closed witness for `C7_record_event_fixed_weights` at a concrete
state with a registered agent and a success event. -/
theorem C7_record_event_fixed_weights_witness :
    alookup ((recordEvent sysA7 "a" "success" none 0).1).scores "a" =
      some (if |clamp01 (1/2 + weightOf "success") - 1/2| > 1/10000
            then clamp01 (1/2 + weightOf "success") else 1/2) :=
  (C7_record_event_fixed_weights sysA7 "a" "success" 0 (1/2)
    (by simp [sysA7, alookup])).1

/-- C7 counterexample: the claim as stated predicts that a heartbeat event
moves a score of 0.5 to 0.50001, but the 0.0001 minimum-change guard
leaves the tracked score at 0.5. -/
theorem C7_heartbeat_counterexample :
    alookup ((recordEvent sysA "a" "heartbeat" none 0).1).scores "a" =
      some (1/2) ∧
    clamp01 (1/2 + weightOf "heartbeat") = 1/2 + 1/100000 ∧
    ((1 : ℚ)/2) ≠ 1/2 + 1/100000 := by
  refine ⟨?_, ?_, by norm_num⟩
  · unfold recordEvent
    dsimp only
    rw [show alookup sysA.scores "a" = some (1/2) from by simp [sysA, alookup],
      show alookup sysA.registry "a" = none from by simp [sysA, alookup]]
    dsimp only
    have hch : ¬ (|clamp01 (1/2 + weightOf "heartbeat") - 1/2| > 1/10000) := by
      rw [show weightOf "heartbeat" = 1/100000 from rfl]
      exact heartbeat_below_threshold (1/2) (by norm_num) (by norm_num)
    split <;> simp [hch, sysA, alookup]
  · rw [show weightOf "heartbeat" = 1/100000 from rfl]
    exact clamp01_of_mem _ (by norm_num) (by norm_num)

/-- The diversity-dampening count: prior interactions with the same peer
inside the trailing one-hour window (`trust.py` lines 127-138). -/
def dampCount (sys : SysState) (agentId s : String) (now : ℚ) : ℕ :=
  ((((alookup sys.peerHistory agentId).getD []).filter
    (fun p => now - p.2 < 3600)).filter (fun p => p.1 = s)).length

theorem recordEvent_dampened_score (sys : SysState)
    (agentId s etype : String) (now prev : ℚ)
    (hs : alookup sys.scores agentId = some prev)
    (h1 : s ≠ "") (h2 : s ≠ agentId) (hw : 0 < weightOf etype)
    (hth : 1/10000 < weightOf etype / 2 ^ dampCount sys agentId s now)
    (hlo : 0 ≤ prev + weightOf etype / 2 ^ dampCount sys agentId s now)
    (hhi : prev + weightOf etype / 2 ^ dampCount sys agentId s now ≤ 1) :
    alookup ((recordEvent sys agentId etype (some s) now).1).scores agentId
      = some (prev + weightOf etype / 2 ^ dampCount sys agentId s now) := by
  have hpos : 0 < weightOf etype / 2 ^ dampCount sys agentId s now :=
    div_pos hw (by positivity)
  unfold recordEvent
  dsimp only
  rw [hs]
  dsimp only
  rw [if_pos (show s ≠ "" ∧ s ≠ agentId ∧ weightOf etype > 0 from
    ⟨h1, h2, hw⟩)]
  have hdelta :
      (if 0 < dampCount sys agentId s now then
        weightOf etype / 2 ^ dampCount sys agentId s now
      else weightOf etype) =
      weightOf etype / 2 ^ dampCount sys agentId s now := by
    rcases Nat.eq_zero_or_pos (dampCount sys agentId s now) with h | h
    · simp [h]
    · simp [h]
  rw [show ((((alookup sys.peerHistory agentId).getD []).filter
      (fun p => now - p.2 < 3600)).filter (fun p => p.1 = s)).length =
      dampCount sys agentId s now from rfl]
  rw [hdelta, clamp01_of_mem _ hlo hhi]
  have habs : |prev + weightOf etype / 2 ^ dampCount sys agentId s now
      - prev| = weightOf etype / 2 ^ dampCount sys agentId s now := by
    rw [show prev + weightOf etype / 2 ^ dampCount sys agentId s now - prev
        = weightOf etype / 2 ^ dampCount sys agentId s now by ring]
    exact abs_of_pos hpos
  rw [habs, if_pos hth]
  repeat' split
  all_goals (rw [alookup_aset]; simp [hs])

theorem recordEvent_peer_window (sys : SysState)
    (agentId s etype : String) (now : ℚ)
    (h1 : s ≠ "") (h2 : s ≠ agentId) (hw : 0 < weightOf etype) :
    ((recordEvent sys agentId etype (some s) now).1).peerHistory =
      aset sys.peerHistory agentId
        ((((alookup sys.peerHistory agentId).getD []).filter
          (fun p => now - p.2 < 3600)) ++ [(s, now)]) := by
  unfold recordEvent
  dsimp only
  rw [if_pos (show s ≠ "" ∧ s ≠ agentId ∧ weightOf etype > 0 from
    ⟨h1, h2, hw⟩)]
  repeat' split
  all_goals rfl

/-- C3: for a `record_event` carrying a `sourcePeerId` distinct from the
agent and a positive event weight, the applied delta is the fixed weight
divided by `2 ^ count`, where `count` is the number of prior interactions
with that peer inside the trailing 1-hour window (stated where the
clamp and the 0.0001 minimum-change guard do not interfere, so the delta
is applied verbatim); in particular two SUCCESS events from the same peer
inside the window move the score by +0.05 and then by +0.025 — the second
applied delta is half the first. -/
theorem C3_diversity_dampening :
    (∀ (sys : SysState) (agentId s etype : String) (now prev : ℚ),
      alookup sys.scores agentId = some prev →
      s ≠ "" → s ≠ agentId → 0 < weightOf etype →
      1/10000 < weightOf etype / 2 ^ dampCount sys agentId s now →
      0 ≤ prev + weightOf etype / 2 ^ dampCount sys agentId s now →
      prev + weightOf etype / 2 ^ dampCount sys agentId s now ≤ 1 →
      alookup ((recordEvent sys agentId etype (some s) now).1).scores
          agentId =
        some (prev + weightOf etype / 2 ^ dampCount sys agentId s now)) ∧
    (∀ (sys : SysState) (agentId s : String) (now1 now2 prev : ℚ),
      alookup sys.scores agentId = some prev →
      alookup sys.peerHistory agentId = none →
      s ≠ "" → s ≠ agentId → now2 - now1 < 3600 →
      0 ≤ prev → prev + 3/40 ≤ 1 →
      alookup ((recordEvent sys agentId "success" (some s) now1).1).scores
          agentId = some (prev + 1/20) ∧
      alookup ((recordEvent ((recordEvent sys agentId "success" (some s)
          now1).1) agentId "success" (some s) now2).1).scores agentId =
        some (prev + 1/20 + 1/40)) := by
  constructor
  · intro sys agentId s etype now prev hs h1 h2 hw hth hlo hhi
    exact recordEvent_dampened_score sys agentId s etype now prev hs h1 h2
      hw hth hlo hhi
  · intro sys agentId s now1 now2 prev hs hph h1 h2 hwin hp0 hp1
    have hwv : weightOf "success" = 1/20 := rfl
    have hw : (0 : ℚ) < weightOf "success" := by rw [hwv]; norm_num
    have hcnt1 : dampCount sys agentId s now1 = 0 := by
      unfold dampCount
      rw [hph]
      rfl
    have hd1 : weightOf "success" / 2 ^ dampCount sys agentId s now1
        = 1/20 := by
      rw [hcnt1, hwv]
      norm_num
    have hfirst := recordEvent_dampened_score sys agentId s "success" now1
      prev hs h1 h2 hw (by rw [hd1]; norm_num) (by rw [hd1]; linarith)
      (by rw [hd1]; linarith)
    rw [hd1] at hfirst
    have hph1 : ((recordEvent sys agentId "success" (some s)
        now1).1).peerHistory = aset sys.peerHistory agentId [(s, now1)] := by
      have hpw := recordEvent_peer_window sys agentId s "success" now1
        h1 h2 hw
      rw [hph] at hpw
      simpa using hpw
    have hcnt2 : dampCount ((recordEvent sys agentId "success" (some s)
        now1).1) agentId s now2 = 1 := by
      unfold dampCount
      rw [hph1, alookup_aset]
      simp [hwin]
    have hd2 : weightOf "success" / 2 ^ dampCount
        ((recordEvent sys agentId "success" (some s) now1).1) agentId s now2
        = 1/40 := by
      rw [hcnt2, hwv]
      norm_num
    have hsecond := recordEvent_dampened_score
      ((recordEvent sys agentId "success" (some s) now1).1) agentId s
      "success" now2 (prev + 1/20) hfirst h1 h2 hw (by rw [hd2]; norm_num)
      (by rw [hd2]; linarith) (by rw [hd2]; linarith)
    rw [hd2] at hsecond
    exact ⟨hfirst, hsecond⟩

/-- Closed witness for `C3_diversity_dampening`: from the neutral score,
two successes reported by the same peer "p" within the hour move the
score to 0.55 and then 0.575. -/
theorem C3_diversity_dampening_witness :
    alookup ((recordEvent sysA "a" "success" (some "p") 0).1).scores "a" =
      some (1/2 + 1/20) ∧
    alookup ((recordEvent ((recordEvent sysA "a" "success" (some "p")
        0).1) "a" "success" (some "p") 10).1).scores "a" =
      some (1/2 + 1/20 + 1/40) :=
  C3_diversity_dampening.2 sysA "a" "p" 0 10 (1/2)
    (by simp [sysA, alookup]) (by simp [sysA, alookup]) (by decide)
    (by decide) (by norm_num) (by norm_num) (by norm_num)

/-- A registered card with a referrer and the bonus not yet paid. -/
def cardReferred : Card :=
  { cardSkillBoth with id := "a", referrerId := some "r" }

/-- State just before the referred agent's fifth success: four successes
already counted, score tracked at the neutral value, one cached search. -/
def sysC5 : SysState :=
  { registry := [("a", cardReferred)], searchCache := ["k"],
    scores := [("a", 1/2)], pending := [],
    eventCounts := [("a", [("success", 4)])], peerHistory := [] }

/-- C5: evaluation of `record_event` at the failing input.  The fifth
success event of a referred agent takes the referral branch, whose
`await registry.update_agent(..., referral_paid=True)` re-enters
`record_event(PROFILE_UPDATE)` on the trust lock that the outer call still
holds — the call deadlocks (flag `true`): `referral_paid` has already been
set on the in-memory card, but `update_agent` never returns, so the
bonus-awarding `create_task` line is never reached, the search-cache clear
is skipped, and the registry wedges.  A fourth success (count below the
threshold) completes normally. -/
theorem C5_referral_deadlock_eval :
    (recordEvent sysC5 "a" "success" (some "p") 10).2 = true ∧
    (alookup ((recordEvent sysC5 "a" "success" (some "p") 10).1).registry
        "a").map Card.referralPaid = some true ∧
    ((recordEvent sysC5 "a" "success" (some "p") 10).1).searchCache
      = ["k"] ∧
    (recordEvent { sysC5 with eventCounts := [("a", [("success", 3)])] }
        "a" "success" (some "p") 10).2 = false := by
  have habs : |(1:ℚ)/20| = 1/20 := abs_of_pos (by norm_num)
  have hp1 : ¬ ("p" : String) = "" := by decide
  have hp2 : ¬ ("p" : String) = "a" := by decide
  have hr1 : ¬ ("r" : String) = "" := by decide
  refine ⟨?_, ?_, ?_, ?_⟩ <;>
    norm_num [recordEvent, sysC5, cardReferred, cardSkillBoth, alookup,
      aset, weightOf, clamp01, habs, hp1, hp2, hr1]

theorem recordEvent_registry_of_ne (sys : SysState) (a e : String)
    (s : Option String) (n : ℚ) (he : e ≠ "success") :
    ((recordEvent sys a e s n).1).registry = sys.registry := by
  unfold recordEvent
  dsimp only
  rw [if_neg (fun h => he h.1)]

theorem recordEvent_eventCounts (sys : SysState) (a e : String)
    (s : Option String) (n : ℚ) :
    ((recordEvent sys a e s n).1).eventCounts =
      aset sys.eventCounts a
        (aset ((alookup sys.eventCounts a).getD []) e
          ((alookup ((alookup sys.eventCounts a).getD []) e).getD 0 + 1)) := by
  unfold recordEvent
  dsimp only
  repeat' split
  all_goals rfl

theorem updateCardFields_trustOnly (card : Card) (v now : ℚ) :
    updateCardFields card { trustScore := some v } now =
      { card with trustScore := some v, updatedAt := now } := by
  simp [updateCardFields, setOpt]

/-- C6 (amended): `flush()` writes each pending score back through
`update_agent` as a trust-score-only patch, so every *patchable* field
other than `trustScore` keeps its value — but `update_agent` itself bumps
the record's `updatedAt` and records a `PROFILE_UPDATE` trust event for
the flushed agent (whose +0.05 weight in turn changes the in-memory score
and re-enqueues it as pending). -/
theorem C6_flush_amended (sys : SysState) (a : String) (v : ℚ)
    (card : Card) (now : ℚ)
    (hp : sys.pending = [(a, v)])
    (hr : alookup sys.registry a = some card) :
    alookup (flushTrust sys now).registry a =
      some { card with trustScore := some v, updatedAt := now } ∧
    (alookup ((alookup (flushTrust sys now).eventCounts a).getD [])
        "profile_update").getD 0 =
      (alookup ((alookup sys.eventCounts a).getD [])
        "profile_update").getD 0 + 1 := by
  unfold flushTrust
  rw [hp]
  dsimp only [List.foldl]
  unfold updateAgentSys
  dsimp only
  rw [hr]
  dsimp only
  rw [updateCardFields_trustOnly]
  constructor
  · rw [recordEvent_registry_of_ne _ _ _ _ _ (by decide)]
    dsimp only
    rw [alookup_aset]
    simp
  · rw [recordEvent_eventCounts]
    dsimp only
    rw [alookup_aset]
    simp [alookup_aset]

/-- A registered card with no referrer, last updated at time 10. -/
def cardPlain : Card :=
  { cardSkillBoth with id := "a", updatedAt := 10 }

/-- State with one agent whose score 0.4 is pending a flush. -/
def sysC6 : SysState :=
  { registry := [("a", cardPlain)], searchCache := [],
    scores := [("a", 2/5)], pending := [("a", 2/5)],
    eventCounts := [], peerHistory := [] }

/-- C6 counterexample: flushing the pending score 0.4 (a) rewrites the
record's `updatedAt` from 10 to 20 — a field other than `trustScore`
changed — and (b) records a `PROFILE_UPDATE` trust event whose +0.05
weight moves the flushed agent's in-memory score from 0.4 to 0.45 and
re-enqueues it as pending, contradicting "no further trust events or
score changes". -/
theorem C6_flush_counterexample :
    (alookup (flushTrust sysC6 20).registry "a").map Card.updatedAt
      = some 20 ∧
    ¬ ((20 : ℚ) = 10) ∧
    alookup (flushTrust sysC6 20).scores "a" = some (9/20) ∧
    ¬ ((9 : ℚ)/20 = 2/5) ∧
    (alookup ((alookup (flushTrust sysC6 20).eventCounts "a").getD [])
        "profile_update").getD 0 = 1 ∧
    (flushTrust sysC6 20).pending = [("a", 9/20)] := by
  have habs : |(1:ℚ)/20| = 1/20 := abs_of_pos (by norm_num)
  have hw : weightOf "profile_update" = 1/20 := rfl
  refine ⟨?_, by norm_num, ?_, by norm_num, ?_, ?_⟩ <;>
    norm_num [flushTrust, updateAgentSys, recordEvent, updateCardFields,
      setOpt, sysC6, cardPlain, cardSkillBoth, alookup, aset, hw,
      clamp01, habs]

/-- Closed witness for `C6_flush_amended` on the concrete one-agent
state. -/
theorem C6_flush_amended_witness :
    alookup (flushTrust sysC6 20).registry "a" =
      some { cardPlain with trustScore := some (2/5), updatedAt := 20 } ∧
    (alookup ((alookup (flushTrust sysC6 20).eventCounts "a").getD [])
        "profile_update").getD 0 =
      (alookup ((alookup sysC6.eventCounts "a").getD [])
        "profile_update").getD 0 + 1 :=
  C6_flush_amended sysC6 "a" (2/5) cardPlain 20 rfl
    (by simp [sysC6, alookup])

/-- C10 (amended): a completed `register_agent` and a completed
`update_agent` leave the search cache empty, but `heartbeat` never
touches it — a heartbeat does not invalidate cached search results. -/
theorem C10_cache_invalidation (sys : SysState) :
    (∀ (card : Card) (sigOk : Bool) (hashv code : String) (now : ℚ),
      ¬ (card.skills = [] ∨ card.endpoint = "") → sigOk = true →
      alookup sys.registry card.id = none →
      (registerAgent sys card sigOk hashv code now).searchCache = []) ∧
    (∀ (a : String) (u : Upd) (now : ℚ) (card : Card),
      alookup sys.registry a = some card →
      (updateAgentSys sys a u now).searchCache = []) ∧
    (∀ (a status : String) (now : ℚ),
      (heartbeatOp sys a status now).searchCache = sys.searchCache) := by
  refine ⟨?_, ?_, ?_⟩
  · intro card sigOk hashv code now hv hsig hnew
    unfold registerAgent
    rw [if_neg hv, hsig, hnew]
    rfl
  · intro a u now card hcard
    unfold updateAgentSys
    rw [hcard]
  · intro a status now
    unfold heartbeatOp
    cases hcard : alookup sys.registry a with
    | none => rfl
    | some card =>
      dsimp only
      exact recordEvent_cache _ _ _ _ _

/-- A directory state holding one agent and one cached search result. -/
def sysC10 : SysState :=
  { registry := [("a", cardPlain)], searchCache := ["k"],
    scores := [], pending := [], eventCounts := [], peerHistory := [] }

/-- C10 counterexample: a completed heartbeat leaves the (non-empty)
search cache exactly as it was, so a search performed after the heartbeat
can still be served from a result cached before it — the claim's
"any directory mutation invalidates the entire cache" fails for
heartbeat. -/
theorem C10_heartbeat_cache_counterexample :
    (heartbeatOp sysC10 "a" "healthy" 5).searchCache = ["k"] ∧
    (["k"] : List String) ≠ [] := by
  constructor
  · unfold heartbeatOp
    rw [show alookup sysC10.registry "a" = some cardPlain from rfl]
    dsimp only
    rw [recordEvent_cache]
    rfl
  · simp

/-- Closed witness for `C10_cache_invalidation`: updating the registered
agent of `sysC10` empties its cache. -/
theorem C10_cache_invalidation_witness :
    (updateAgentSys sysC10 "a" { } 5).searchCache = [] :=
  (C10_cache_invalidation sysC10).2.1 "a" { } 5 cardPlain rfl

/-! ## The [0,1] trust-score invariant (C1) -/

/-- Every in-memory trust score lies in [0,1]. -/
def ScoresIn01 (sys : SysState) : Prop :=
  ∀ p ∈ sys.scores, 0 ≤ p.2 ∧ p.2 ≤ 1

/-- Every persisted `trustScore` in the directory lies in [0,1] — the
spec's data-model invariant (`trustScore` float in [0,1], nullable). -/
def RegistryIn01 (sys : SysState) : Prop :=
  ∀ p ∈ sys.registry, ∀ v, p.2.trustScore = some v → 0 ≤ v ∧ v ≤ 1

/-- The trust operations of the claim: `record_event` with any event type
and source, a `_decay_loop` tick, and a lazily-decaying `get_score`. -/
inductive TrustOp where
  | record (agentId eventType : String) (src : Option String) (now : ℚ)
  | decay
  | readScore (agentId : String) (now : ℚ)

def applyOp (sys : SysState) : TrustOp → SysState
  | .record a e s n => (recordEvent sys a e s n).1
  | .decay => decayTick sys
  | .readScore a n => (getScoreOp sys a n).1

def runOps (sys : SysState) (ops : List TrustOp) : SysState :=
  ops.foldl applyOp sys

theorem bounded_aset (l : List (String × ℚ)) (k : String) (v : ℚ)
    (hl : ∀ p ∈ l, 0 ≤ p.2 ∧ p.2 ≤ 1) (hv : 0 ≤ v ∧ v ≤ 1) :
    ∀ p ∈ aset l k v, 0 ≤ p.2 ∧ p.2 ≤ 1 := by
  intro p hp
  rcases mem_aset l k v p hp with h | h
  · rw [h]
    exact hv
  · exact hl p h

theorem recordEvent_scores_bounded (sys : SysState) (a e : String)
    (s : Option String) (n : ℚ) (hreg : RegistryIn01 sys)
    (hsc : ScoresIn01 sys) :
    ∀ p ∈ ((recordEvent sys a e s n).1).scores, 0 ≤ p.2 ∧ p.2 ≤ 1 := by
  rw [recordEvent_scores_eq]
  intro p hp
  cases hl : alookup sys.scores a with
  | some c =>
    rw [hl] at hp
    dsimp only at hp
    split at hp
    · exact bounded_aset _ _ _ hsc ⟨clamp01_nonneg _, clamp01_le_one _⟩ p hp
    · exact hsc p hp
  | none =>
    rw [hl] at hp
    cases hr : alookup sys.registry a with
    | none =>
      rw [hr] at hp
      dsimp only at hp
      split at hp
      · exact bounded_aset _ _ _
          (bounded_aset _ _ _ hsc (by norm_num))
          ⟨clamp01_nonneg _, clamp01_le_one _⟩ p hp
      · exact bounded_aset _ _ _ hsc (by norm_num) p hp
    | some card =>
      rw [hr] at hp
      dsimp only at hp
      have hseed : 0 ≤ card.trustScore.getD (1/2) ∧
          card.trustScore.getD (1/2) ≤ 1 := by
        cases ht : card.trustScore with
        | none => simp [ht]; norm_num
        | some v =>
          simpa [ht] using hreg (a, card) (alookup_mem _ _ _ hr) v ht
      split at hp
      · exact bounded_aset _ _ _ (bounded_aset _ _ _ hsc hseed)
          ⟨clamp01_nonneg _, clamp01_le_one _⟩ p hp
      · exact bounded_aset _ _ _ hsc hseed p hp

theorem recordEvent_registry_shape (sys : SysState) (a e : String)
    (s : Option String) (n : ℚ) :
    ((recordEvent sys a e s n).1).registry = sys.registry ∨
    (∃ card, alookup sys.registry a = some card ∧
      ((recordEvent sys a e s n).1).registry =
        aset sys.registry a
          { card with referralPaid := true, updatedAt := n }) := by
  unfold recordEvent
  dsimp only
  repeat' split
  all_goals first
    | exact Or.inl rfl
    | exact Or.inr ⟨_, by assumption, rfl⟩

theorem getScoreOp_scores_shape (sys : SysState) (a : String) (n : ℚ) :
    ((getScoreOp sys a n).1).scores = sys.scores ∨
    (∃ d, ((getScoreOp sys a n).1).scores =
      aset sys.scores a (clamp01 d)) ∨
    (∃ card, alookup sys.registry a = some card ∧
      ((getScoreOp sys a n).1).scores =
        aset sys.scores a (card.trustScore.getD (1/2))) := by
  unfold getScoreOp
  dsimp only
  repeat' split
  all_goals first
    | exact Or.inl rfl
    | exact Or.inr (Or.inl ⟨_, rfl⟩)
    | exact Or.inr (Or.inr ⟨_, by assumption, rfl⟩)

theorem getScoreOp_registry (sys : SysState) (a : String) (n : ℚ) :
    ((getScoreOp sys a n).1).registry = sys.registry := by
  unfold getScoreOp
  dsimp only
  repeat' split
  all_goals rfl

theorem decayStep_scores (acc : SysState) (p : String × ℚ)
    (h : ∀ q ∈ acc.scores, 0 ≤ q.2 ∧ q.2 ≤ 1) :
    ∀ q ∈ (decayStep acc p).scores, 0 ≤ q.2 ∧ q.2 ≤ 1 := by
  unfold decayStep
  dsimp only
  repeat' split
  all_goals
    first
    | exact h
    | exact bounded_aset _ _ _ h ⟨clamp01_nonneg _, clamp01_le_one _⟩

theorem decayStep_registry (acc : SysState) (p : String × ℚ) :
    (decayStep acc p).registry = acc.registry := by
  unfold decayStep
  dsimp only
  repeat' split
  all_goals rfl

theorem foldl_decayStep_scores (l : List (String × ℚ)) (acc : SysState)
    (h : ∀ q ∈ acc.scores, 0 ≤ q.2 ∧ q.2 ≤ 1) :
    ∀ q ∈ (l.foldl decayStep acc).scores, 0 ≤ q.2 ∧ q.2 ≤ 1 := by
  induction l generalizing acc with
  | nil => exact h
  | cons x t ih => exact ih (decayStep acc x) (decayStep_scores acc x h)

theorem foldl_decayStep_registry (l : List (String × ℚ)) (acc : SysState) :
    (l.foldl decayStep acc).registry = acc.registry := by
  induction l generalizing acc with
  | nil => rfl
  | cons x t ih => rw [List.foldl_cons, ih, decayStep_registry]

theorem applyOp_preserves (sys : SysState) (op : TrustOp)
    (hreg : RegistryIn01 sys) (hsc : ScoresIn01 sys) :
    RegistryIn01 (applyOp sys op) ∧ ScoresIn01 (applyOp sys op) := by
  cases op with
  | record a e s n =>
    constructor
    · rcases recordEvent_registry_shape sys a e s n with h | ⟨card, hc, h⟩
      · intro p hp
        rw [applyOp] at hp
        rw [h] at hp
        exact hreg p hp
      · intro p hp v hv
        rw [applyOp] at hp
        rw [h] at hp
        rcases mem_aset _ _ _ p hp with hq | hq
        · rw [hq] at hv
          exact hreg (a, card) (alookup_mem _ _ _ hc) v hv
        · exact hreg p hq v hv
    · intro p hp
      rw [applyOp] at hp
      exact recordEvent_scores_bounded sys a e s n hreg hsc p hp
  | decay =>
    constructor
    · intro p hp
      rw [applyOp, decayTick, foldl_decayStep_registry] at hp
      exact hreg p hp
    · intro p hp
      exact foldl_decayStep_scores sys.scores sys hsc p hp
  | readScore a n =>
    constructor
    · intro p hp
      rw [applyOp, getScoreOp_registry] at hp
      exact hreg p hp
    · rcases getScoreOp_scores_shape sys a n with h | ⟨d, h⟩ | ⟨card, hc, h⟩
      · intro p hp
        rw [applyOp] at hp
        rw [h] at hp
        exact hsc p hp
      · intro p hp
        rw [applyOp] at hp
        rw [h] at hp
        exact bounded_aset _ _ _ hsc
          ⟨clamp01_nonneg _, clamp01_le_one _⟩ p hp
      · intro p hp
        rw [applyOp] at hp
        rw [h] at hp
        refine bounded_aset _ _ _ hsc ?_ p hp
        cases ht : card.trustScore with
        | none => simp [ht]; norm_num
        | some v =>
          simpa [ht] using hreg (a, card) (alookup_mem _ _ _ hc) v ht

/-- C1: starting from any state whose in-memory and persisted trust
scores lie in [0,1] (the registry's data-model invariant), every finite
sequence of trust operations — `record_event` with arbitrary event types
and source peers, decay ticks, and lazy analytic decay in `get_score` —
keeps every tracked trust score within [0,1]. -/
theorem C1_trust_scores_in_unit_interval (sys : SysState)
    (ops : List TrustOp) (hreg : RegistryIn01 sys) (hsc : ScoresIn01 sys) :
    ∀ a v, alookup (runOps sys ops).scores a = some v → 0 ≤ v ∧ v ≤ 1 := by
  have hrun : RegistryIn01 (runOps sys ops) ∧ ScoresIn01 (runOps sys ops) := by
    unfold runOps
    induction ops generalizing sys with
    | nil => exact ⟨hreg, hsc⟩
    | cons op t ih =>
      rw [List.foldl_cons]
      exact ih (applyOp sys op) (applyOp_preserves sys op hreg hsc).1
        (applyOp_preserves sys op hreg hsc).2
  intro a v hv
  exact hrun.2 (a, v) (alookup_mem _ _ _ hv)

/-- Closed witness for `C1_trust_scores_in_unit_interval`: from the empty
state, a success event, a decay tick, a lazy read and a bad-signature
event leave every tracked score in [0,1]. -/
theorem C1_trust_scores_in_unit_interval_witness :
    match alookup (runOps
        { registry := [], searchCache := [], scores := [], pending := [],
          eventCounts := [], peerHistory := [] }
        [TrustOp.record "a" "success" none 0, TrustOp.decay,
         TrustOp.readScore "b" 70, TrustOp.record "a" "bad_sig" none 80]
      ).scores "a" with
    | some v => 0 ≤ v ∧ v ≤ 1
    | none => True := by
  cases h : alookup (runOps
      { registry := [], searchCache := [], scores := [], pending := [],
        eventCounts := [], peerHistory := [] }
      [TrustOp.record "a" "success" none 0, TrustOp.decay,
       TrustOp.readScore "b" 70, TrustOp.record "a" "bad_sig" none 80]
    ).scores "a" with
  | none => trivial
  | some v =>
    exact C1_trust_scores_in_unit_interval _ _
      (fun p hp => by simp at hp) (fun p hp => by simp at hp) "a" v h

end AgentMesh
